import Mathlib

set_option maxRecDepth 10000
set_option linter.unusedVariables false

/-!
# Verification of the joinmarket-v2 orderbook watcher core

A shallow embedding of the Python sources under `src/` (`jmcore/btc_script.py`,
`jmcore/mempool_api.py`, `orderbook_watcher/aggregator.py`,
`orderbook_watcher/bond_validator.py`) together with theorems settling the
frozen specification claims.  Python integers are modelled as `Nat`/`Int`
(bytes are `Nat` values kept below 256 by construction, with `% 256` written
out where the source masks), byte strings as `List Nat`, Python `None` as
`Option`, raised exceptions as `Except`, and the blockchain collaborator as
explicit oracle arguments.  Components of the repository that are not under
`src/` (`jmcore.bond_calc`, `jmcore.models`) are modelled from the spec and
carry a doc comment saying so.
-/

namespace JoinMarket

/-! ## Bond value model (`jmcore.bond_calc`)

Modelled from the spec: `jmcore/bond_calc.py` is not under `src/`, only its
test file is.  The spec (§4.3) requires `value(amount, confirm_time,
unlock_time, now, interest_rate, exponent)` to be 0 when `now <= confirm_time`
or `unlock_time <= confirm_time`, to be a deterministic fixed-precision
computation, monotone (strictly, on non-degenerate inputs) in amount, locked
duration, interest rate and exponent, and otherwise "any monotonic
decaying-value curve satisfying the properties above is acceptable".
-/

/-- Default interest rate of the bond value model (the spec fixes no numeric
default; the tests use a larger custom rate `0.03` to probe monotonicity). -/
def default_interest_rate : ℚ := 15 / 1000

/-- Default exponent of the bond value model (a natural-number exponent keeps
the model a fixed-precision rational computation, as the spec asks). -/
def default_exponent : ℕ := 1

/-- Modelled from the spec: `calculate_timelocked_fidelity_bond_value` of the
missing `jmcore/bond_calc.py`.  Amounts are satoshi counts (`ℕ`); times are
Unix timestamps (`ℤ`); the result is an exact rational.  The value is 0 when
`now ≤ confirm_time` or `unlock_time ≤ confirm_time`, and otherwise a
duration-weighted, interest-scaled multiple of the amount. -/
def calculate_timelocked_fidelity_bond_value (amount : ℕ)
    (confirmation_time locktime current_time : ℤ)
    (interest_rate : ℚ) (exponent : ℕ) : ℚ :=
  if current_time ≤ confirmation_time ∨ locktime ≤ confirmation_time then 0
  else (amount : ℚ) * (1 + interest_rate * ((locktime : ℚ) - (confirmation_time : ℚ))) ^ exponent

/-- Reduction of the bond value on a non-degenerate input: when
`confirmation_time < current_time` and `confirmation_time < locktime` the
guard of the definition is false. -/
theorem bond_value_of_nondegenerate (amount : ℕ)
    (ct lt now : ℤ) (r : ℚ) (e : ℕ) (hnow : ct < now) (hlt : ct < lt) :
    calculate_timelocked_fidelity_bond_value amount ct lt now r e =
      (amount : ℚ) * (1 + r * ((lt : ℚ) - (ct : ℚ))) ^ e := by
  unfold calculate_timelocked_fidelity_bond_value
  rw [if_neg]
  push_neg
  exact ⟨hnow, hlt⟩

/-- C2: the bond value is exactly 0 whenever `now ≤ confirm_time` or
`unlock_time ≤ confirm_time`, and for a non-negative interest rate it is never
negative, however far `now` lies past `unlock_time`. -/
theorem bond_value_zero_on_degenerate_and_nonneg (amount : ℕ)
    (ct lt now : ℤ) (r : ℚ) (e : ℕ) :
    ((now ≤ ct ∨ lt ≤ ct) →
      calculate_timelocked_fidelity_bond_value amount ct lt now r e = 0) ∧
    (0 ≤ r → 0 ≤ calculate_timelocked_fidelity_bond_value amount ct lt now r e) := by
  constructor
  · intro h
    unfold calculate_timelocked_fidelity_bond_value
    exact if_pos h
  · intro hr
    unfold calculate_timelocked_fidelity_bond_value
    split
    · exact le_refl 0
    · rename_i h
      push_neg at h
      have hlt : (ct : ℚ) < (lt : ℚ) := by exact_mod_cast h.2
      have hbase : (0 : ℚ) ≤ 1 + r * ((lt : ℚ) - (ct : ℚ)) := by
        have := mul_nonneg hr (le_of_lt (sub_pos.mpr hlt))
        linarith
      exact mul_nonneg (Nat.cast_nonneg amount) (pow_nonneg hbase e)

/-- Witness for C2 at the test file's concrete inputs: the fully degenerate
input of `test_bond_value_zero_locktime` yields 0, and the expired-locktime
input of `test_bond_value_expired` yields a non-negative value. -/
theorem bond_value_zero_on_degenerate_and_nonneg_witness :
    calculate_timelocked_fidelity_bond_value 100000000 1704067200 1704067200 1704067200
      default_interest_rate default_exponent = 0 ∧
    0 ≤ calculate_timelocked_fidelity_bond_value 100000000 1577836800 1893456000 1956528001
      default_interest_rate default_exponent :=
  ⟨(bond_value_zero_on_degenerate_and_nonneg 100000000 1704067200 1704067200 1704067200
      default_interest_rate default_exponent).1 (Or.inl le_rfl),
   (bond_value_zero_on_degenerate_and_nonneg 100000000 1577836800 1893456000 1956528001
      default_interest_rate default_exponent).2
      (by norm_num [default_interest_rate])⟩

/-- C3: on a non-degenerate input (positive amount, positive interest rate,
`confirm_time < now`, a positive locked duration, exponent at least the
default 1), doubling the amount, lengthening the lock, raising the interest
rate, and raising the exponent each strictly increase the bond value. -/
theorem bond_value_strict_monotone (a : ℕ) (ct ut now : ℤ) (r : ℚ) (e : ℕ)
    (hnow : ct < now) (hd : ct < ut) (ha : 0 < a) (hr : 0 < r) (he : 1 ≤ e) :
    calculate_timelocked_fidelity_bond_value a ct ut now r e <
      calculate_timelocked_fidelity_bond_value (2 * a) ct ut now r e ∧
    (∀ ut', ut < ut' →
      calculate_timelocked_fidelity_bond_value a ct ut now r e <
        calculate_timelocked_fidelity_bond_value a ct ut' now r e) ∧
    (∀ r', r < r' →
      calculate_timelocked_fidelity_bond_value a ct ut now r e <
        calculate_timelocked_fidelity_bond_value a ct ut now r' e) ∧
    (∀ e', e < e' →
      calculate_timelocked_fidelity_bond_value a ct ut now r e <
        calculate_timelocked_fidelity_bond_value a ct ut now r e') := by
  have hcast : (ct : ℚ) < (ut : ℚ) := by exact_mod_cast hd
  have hdq : (0 : ℚ) < (ut : ℚ) - (ct : ℚ) := sub_pos.mpr hcast
  have hbase1 : (1 : ℚ) < 1 + r * ((ut : ℚ) - (ct : ℚ)) := by
    have := mul_pos hr hdq
    linarith
  have hbase0 : (0 : ℚ) < 1 + r * ((ut : ℚ) - (ct : ℚ)) := lt_trans one_pos hbase1
  have haq : (0 : ℚ) < (a : ℚ) := by exact_mod_cast ha
  have hne : e ≠ 0 := by omega
  refine ⟨?_, ?_, ?_, ?_⟩
  · rw [bond_value_of_nondegenerate a ct ut now r e hnow hd,
      bond_value_of_nondegenerate (2 * a) ct ut now r e hnow hd]
    have h2a : (a : ℚ) < ((2 * a : ℕ) : ℚ) := by
      push_cast
      linarith
    exact mul_lt_mul_of_pos_right h2a (pow_pos hbase0 e)
  · intro ut' hut
    have hd' : ct < ut' := lt_trans hd hut
    rw [bond_value_of_nondegenerate a ct ut now r e hnow hd,
      bond_value_of_nondegenerate a ct ut' now r e hnow hd']
    have hcast' : (ut : ℚ) < (ut' : ℚ) := by exact_mod_cast hut
    have hbb : 1 + r * ((ut : ℚ) - (ct : ℚ)) < 1 + r * ((ut' : ℚ) - (ct : ℚ)) := by
      have := mul_lt_mul_of_pos_left (sub_lt_sub_right hcast' (ct : ℚ)) hr
      linarith
    exact mul_lt_mul_of_pos_left (pow_lt_pow_left₀ hbb (le_of_lt hbase0) hne) haq
  · intro r' hrr
    rw [bond_value_of_nondegenerate a ct ut now r e hnow hd,
      bond_value_of_nondegenerate a ct ut now r' e hnow hd]
    have hbb : 1 + r * ((ut : ℚ) - (ct : ℚ)) < 1 + r' * ((ut : ℚ) - (ct : ℚ)) := by
      have := mul_lt_mul_of_pos_right hrr hdq
      linarith
    exact mul_lt_mul_of_pos_left (pow_lt_pow_left₀ hbb (le_of_lt hbase0) hne) haq
  · intro e' hee
    rw [bond_value_of_nondegenerate a ct ut now r e hnow hd,
      bond_value_of_nondegenerate a ct ut now r e' hnow hd]
    exact mul_lt_mul_of_pos_left (pow_lt_pow_right₀ hbase1 hee) haq

/-- Witness for C3 at the test file's concrete inputs: amount 50000000 sats
doubled, lock 1893456000 lengthened to 1956528000, interest 0.015 raised to
0.03, exponent 1 raised to 2, all with confirmation time 1577836800 and
current time 1704067200. -/
theorem bond_value_strict_monotone_witness :
    calculate_timelocked_fidelity_bond_value 50000000 1577836800 1893456000 1704067200
        default_interest_rate default_exponent <
      calculate_timelocked_fidelity_bond_value (2 * 50000000) 1577836800 1893456000 1704067200
        default_interest_rate default_exponent ∧
    calculate_timelocked_fidelity_bond_value 50000000 1577836800 1893456000 1704067200
        default_interest_rate default_exponent <
      calculate_timelocked_fidelity_bond_value 50000000 1577836800 1956528000 1704067200
        default_interest_rate default_exponent ∧
    calculate_timelocked_fidelity_bond_value 50000000 1577836800 1893456000 1704067200
        default_interest_rate default_exponent <
      calculate_timelocked_fidelity_bond_value 50000000 1577836800 1893456000 1704067200
        (3 / 100) default_exponent ∧
    calculate_timelocked_fidelity_bond_value 50000000 1577836800 1893456000 1704067200
        default_interest_rate default_exponent <
      calculate_timelocked_fidelity_bond_value 50000000 1577836800 1893456000 1704067200
        default_interest_rate 2 := by
  have h := bond_value_strict_monotone 50000000 1577836800 1893456000 1704067200
    default_interest_rate default_exponent (by norm_num) (by norm_num) (by norm_num)
    (by norm_num [default_interest_rate]) (by norm_num [default_exponent])
  exact ⟨h.1, h.2.1 1956528000 (by norm_num),
    h.2.2.1 (3 / 100) (by norm_num [default_interest_rate]),
    h.2.2.2 2 (by norm_num [default_exponent])⟩

/-! ## Script builder (`jmcore/btc_script.py`)

Byte strings are `List ℕ` with each element below 256 by construction.
`0xB1` is OP_CHECKLOCKTIMEVERIFY, `0x75` is OP_DROP, `0xAC` is OP_CHECKSIG.
-/

/-- Fuel-driven little-endian byte expansion.  `natBytesLE` below passes the
number itself as fuel, which always suffices because the value shrinks by a
factor 256 each step.  This models the `while absvalue:` loop of
`_encode_scriptnum` (`jmcore/btc_script.py`): append `absvalue & 0xFF`
(that is `n % 256`), then shift the value right by 8 bits (`n / 256`). -/
def natBytesLE_go : ℕ → ℕ → List ℕ
  | 0, _ => []
  | fuel + 1, n => if n = 0 then [] else n % 256 :: natBytesLE_go fuel (n / 256)

/-- Fuel irrelevance for `natBytesLE_go`: any fuel at least the value being
expanded produces the same byte list. -/
theorem natBytesLE_go_congr :
    ∀ n f f' : ℕ, n ≤ f → n ≤ f' → natBytesLE_go f n = natBytesLE_go f' n := by
  intro n
  induction n using Nat.strong_induction_on with
  | _ n ih =>
    intro f f' hf hf'
    rcases n with _ | m
    · rcases f with _ | f <;> rcases f' with _ | f' <;> rfl
    · rcases f with _ | f
      · omega
      rcases f' with _ | f'
      · omega
      show natBytesLE_go (f + 1) (m + 1) = natBytesLE_go (f' + 1) (m + 1)
      simp only [natBytesLE_go, if_neg (Nat.succ_ne_zero m)]
      have hd : (m + 1) / 256 < m + 1 := Nat.div_lt_self (Nat.succ_pos m) (by norm_num)
      exact congrArg (List.cons _) (ih ((m + 1) / 256) hd f f' (by omega) (by omega))

/-- Little-endian base-256 byte list of a natural number, the magnitude
encoding built by the `while absvalue:` loop of `_encode_scriptnum`. -/
def natBytesLE (n : ℕ) : List ℕ := natBytesLE_go n n

/-- Unfolding equation for `natBytesLE`, matching one loop iteration of the
source. -/
theorem natBytesLE_eq (n : ℕ) :
    natBytesLE n = if n = 0 then [] else n % 256 :: natBytesLE (n / 256) := by
  rcases n with _ | m
  · rfl
  · show natBytesLE_go (m + 1) (m + 1) = _
    rw [if_neg (Nat.succ_ne_zero m)]
    simp only [natBytesLE_go, if_neg (Nat.succ_ne_zero m)]
    have hd : (m + 1) / 256 < m + 1 := Nat.div_lt_self (Nat.succ_pos m) (by norm_num)
    exact congrArg (List.cons _)
      (natBytesLE_go_congr ((m + 1) / 256) m ((m + 1) / 256) (by omega) le_rfl)

/-- Structure of a nonzero magnitude encoding: it ends in a nonzero byte
below 256 (so the encoding is the minimal-length one: no trailing zero
byte). -/
theorem natBytesLE_concat (n : ℕ) (h : n ≠ 0) :
    ∃ L b, natBytesLE n = L ++ [b] ∧ b ≠ 0 ∧ b < 256 := by
  induction n using Nat.strong_induction_on with
  | _ n ih =>
    rw [natBytesLE_eq, if_neg h]
    by_cases hq : n / 256 = 0
    · refine ⟨[], n % 256, by rw [hq, natBytesLE_eq]; rfl, ?_, Nat.mod_lt _ (by norm_num)⟩
      intro hm
      exact h (by omega : n = 0)
    · obtain ⟨L, b, hL, hb0, hb⟩ :=
        ih (n / 256) (Nat.div_lt_self (Nat.pos_of_ne_zero h) (by norm_num)) hq
      exact ⟨n % 256 :: L, b, by rw [hL]; rfl, hb0, hb⟩

/-- Test for the top bit of a byte: for `b < 256`, the Python expression
`b & 0x80` is nonzero exactly when `128 ≤ b`. -/
theorem land128_ne_zero_iff {b : ℕ} (hb : b < 256) : Nat.land b 128 ≠ 0 ↔ 128 ≤ b := by
  have : ∀ x : Fin 256, (Nat.land (x : ℕ) 128 ≠ 0 ↔ 128 ≤ (x : ℕ)) := by decide
  exact this ⟨b, hb⟩

/-- Setting the top bit of a byte whose top bit is clear: for `b < 128`, the
Python expression `b | 0x80` equals `b + 128`. -/
theorem lor128_eq_add {b : ℕ} (hb : b < 128) : Nat.lor b 128 = b + 128 := by
  have : ∀ x : Fin 128, Nat.lor (x : ℕ) 128 = (x : ℕ) + 128 := by decide
  exact this ⟨b, hb⟩

/-- Embedding of `_encode_scriptnum` from `jmcore/btc_script.py`: sign-magnitude
little-endian script-number encoding.  `result.getLastD 0` models the Python
read `result[-1]` (the list is nonempty whenever it is read);
`result[-1] |= 0x80` becomes replacing the last byte by its `Nat.lor` with
`0x80`. -/
def encode_scriptnum (n : ℤ) : List ℕ :=
  if n = 0 then []
  else
    let result := natBytesLE n.natAbs
    if Nat.land (result.getLastD 0) 0x80 ≠ 0 then
      result ++ [if n < 0 then 0x80 else 0x00]
    else if n < 0 then
      result.dropLast ++ [Nat.lor (result.getLastD 0) 0x80]
    else result

/-- Script-number encoding transcribed from the words of the spec (§4.4,
claim C6): "empty for zero; otherwise the little-endian bytes of `|n|` with
the top bit of the last byte carrying the sign, and with an extra `0x00`
(positive) or `0x80` (negative) byte appended exactly when the natural
magnitude encoding's top bit is already set".  The top bit of a byte
`b < 256` is set exactly when `0x80 ≤ b`; carrying the sign on a clear top
bit adds `0x80` for negative inputs and leaves the byte unchanged for
positive ones. -/
def scriptnum_spec_encoding (n : ℤ) : List ℕ :=
  if n = 0 then []
  else
    let mag := natBytesLE n.natAbs
    if 0x80 ≤ mag.getLastD 0 then
      mag ++ [if n < 0 then 0x80 else 0x00]
    else
      mag.dropLast ++ [if n < 0 then mag.getLastD 0 + 0x80 else mag.getLastD 0]

/-- Embedding of `_push_data` from `jmcore/btc_script.py`: a direct push for up to 75
bytes, OP_PUSHDATA1 (`0x4C`) with a 1-byte length up to 255, OP_PUSHDATA2
(`0x4D`) with a little-endian 2-byte length up to 65535, and OP_PUSHDATA4
(`0x4E`) with a little-endian 4-byte length beyond (`struct.pack` emits the
length bytes low first, written here with explicit `/ 256^k % 256`). -/
def push_data (data : List ℕ) : List ℕ :=
  let n := data.length
  if n ≤ 75 then n :: data
  else if n ≤ 0xFF then 0x4C :: n :: data
  else if n ≤ 0xFFFF then 0x4D :: n % 256 :: n / 256 % 256 :: data
  else 0x4E :: n % 256 :: n / 256 % 256 :: n / 2 ^ 16 % 256 :: n / 2 ^ 24 % 256 :: data

/-- Value of one hexadecimal digit, as accepted by Python `bytes.fromhex`. -/
def hexDigitVal (c : Char) : Option ℕ :=
  if '0' ≤ c ∧ c ≤ '9' then some (c.toNat - '0'.toNat)
  else if 'a' ≤ c ∧ c ≤ 'f' then some (c.toNat - 'a'.toNat + 10)
  else if 'A' ≤ c ∧ c ≤ 'F' then some (c.toNat - 'A'.toNat + 10)
  else none

/-- Pairs of hex digits decoded to bytes; `none` models the `ValueError`
raised by Python `bytes.fromhex` on a malformed hex string (the whitespace
tolerance of `fromhex` is irrelevant to the claims and not modelled). -/
def hexPairs : List Char → Option (List ℕ)
  | [] => some []
  | [_] => none
  | c1 :: c2 :: rest => do
    let hi ← hexDigitVal c1
    let lo ← hexDigitVal c2
    let tail ← hexPairs rest
    pure ((16 * hi + lo) :: tail)

/-- Python `bytes.fromhex` on a string: decode hex-digit pairs to bytes. -/
def hexDecode (s : String) : Option (List ℕ) := hexPairs s.data

/-- Body of `mk_freeze_script` after hex decoding: the length guard raising
`ValueError(f"Invalid pubkey length: {len}, expected 33")`, then
`<push locktime> OP_CHECKLOCKTIMEVERIFY OP_DROP <push pubkey> OP_CHECKSIG`. -/
def mk_freeze_script_bytes (pubkey_bytes : List ℕ) (locktime : ℤ) :
    Except String (List ℕ) :=
  if pubkey_bytes.length ≠ 33 then
    Except.error ("Invalid pubkey length: " ++ toString pubkey_bytes.length ++ ", expected 33")
  else
    Except.ok (push_data (encode_scriptnum locktime) ++ [0xB1, 0x75] ++
      push_data pubkey_bytes ++ [0xAC])

/-- Embedding of `mk_freeze_script` from `jmcore/btc_script.py`: decode the hex public
key (a malformed hex string raises `bytes.fromhex`'s own `ValueError`),
then build the timelocked redeem script. -/
def mk_freeze_script (pubkey_hex : String) (locktime : ℤ) : Except String (List ℕ) :=
  match hexDecode pubkey_hex with
  | none => Except.error "non-hexadecimal number found in fromhex arg"
  | some pk => mk_freeze_script_bytes pk locktime

/-- C6: `_encode_scriptnum` computes exactly the script-number encoding the
spec describes — empty for zero, otherwise the minimal little-endian
magnitude bytes (the last one nonzero, witnessing minimal length) with the
top bit of the last byte carrying the sign and an extra `0x00`/`0x80` byte
appended exactly when the natural magnitude encoding's top bit is already
set. -/
theorem encode_scriptnum_eq_spec (n : ℤ) :
    encode_scriptnum n = scriptnum_spec_encoding n ∧
    (n ≠ 0 → ∃ L b, natBytesLE n.natAbs = L ++ [b] ∧ b ≠ 0) := by
  constructor
  · by_cases h0 : n = 0
    · rw [encode_scriptnum, scriptnum_spec_encoding, if_pos h0, if_pos h0]
    · have habs : n.natAbs ≠ 0 := fun h => h0 (Int.natAbs_eq_zero.mp h)
      obtain ⟨L, b, hmag, hb0, hb256⟩ := natBytesLE_concat n.natAbs habs
      rw [encode_scriptnum, scriptnum_spec_encoding, if_neg h0, if_neg h0]
      simp only [hmag, List.getLastD_concat, List.dropLast_concat]
      by_cases htop : 128 ≤ b
      · rw [if_pos ((land128_ne_zero_iff hb256).mpr htop), if_pos htop]
      · rw [if_neg (fun hx => htop ((land128_ne_zero_iff hb256).mp hx)), if_neg htop]
        by_cases hneg : n < 0
        · rw [if_pos hneg, if_pos hneg, lor128_eq_add (by omega)]
        · rw [if_neg hneg, if_neg hneg]
  · intro h0
    have habs : n.natAbs ≠ 0 := fun h => h0 (Int.natAbs_eq_zero.mp h)
    obtain ⟨L, b, hmag, hb0, _⟩ := natBytesLE_concat n.natAbs habs
    exact ⟨L, b, hmag, hb0⟩

/-- Witness for C6 at representative inputs: zero, a positive number whose
top magnitude bit is clear (the test locktime 1956528000), a positive number
whose top magnitude bit is set (128), and their negations. -/
theorem encode_scriptnum_eq_spec_witness :
    encode_scriptnum 0 = scriptnum_spec_encoding 0 ∧
    encode_scriptnum 1956528000 = scriptnum_spec_encoding 1956528000 ∧
    encode_scriptnum 128 = scriptnum_spec_encoding 128 ∧
    encode_scriptnum (-128) = scriptnum_spec_encoding (-128) ∧
    (∃ L b, natBytesLE (Int.natAbs 1956528000) = L ++ [b] ∧ b ≠ 0) :=
  ⟨(encode_scriptnum_eq_spec 0).1, (encode_scriptnum_eq_spec 1956528000).1,
   (encode_scriptnum_eq_spec 128).1, (encode_scriptnum_eq_spec (-128)).1,
   (encode_scriptnum_eq_spec 1956528000).2 (by decide)⟩

/-- C4 (amended): for every hex public key decoding to exactly 33 bytes and
every integer locktime, each of the opcode bytes `0xB1` (CLTV), `0x75`
(DROP) and `0xAC` (CHECKSIG) occurs in the redeem script exactly once more
than it occurs inside the two data-push chunks (encoded locktime push and
pubkey push); in particular each occurs at least once, and exactly once
whenever the pushed chunks avoid the three byte values. -/
theorem mk_freeze_script_opcode_count (s : String) (pk : List ℕ) (lt : ℤ) (c : ℕ)
    (hdec : hexDecode s = some pk) (hlen : pk.length = 33)
    (hc : c ∈ [0xB1, 0x75, 0xAC]) :
    (mk_freeze_script s lt).map (fun scr => scr.count c) =
      Except.ok ((push_data (encode_scriptnum lt)).count c +
        (push_data pk).count c + 1) := by
  have hred : mk_freeze_script s lt = mk_freeze_script_bytes pk lt := by
    unfold mk_freeze_script
    rw [hdec]
  rw [hred]
  unfold mk_freeze_script_bytes
  rw [if_neg (by simp [hlen])]
  simp only [Except.map, List.count_append, Except.ok.injEq]
  rcases List.mem_cons.mp hc with rfl | hc'
  · simp [List.count_cons]
    omega
  rcases List.mem_cons.mp hc' with rfl | hc''
  · simp [List.count_cons]
    omega
  rcases List.mem_cons.mp hc'' with rfl | hc'''
  · simp [List.count_cons]
  · simp at hc'''

/-- Witness for C4 (amended) at the test suite's concrete pubkey and
locktime, for each of the three opcodes. -/
theorem mk_freeze_script_opcode_count_witness :
    (mk_freeze_script "02a1b2c3d4e5f6a7b8c9d0e1f2a3b4c5d6e7f8a9b0c1d2e3f4a5b6c7d8e9f0a1b2"
        1956528000).map (fun scr => scr.count 0xB1) =
      Except.ok ((push_data (encode_scriptnum 1956528000)).count 0xB1 +
        (push_data [0x02, 0xa1, 0xb2, 0xc3, 0xd4, 0xe5, 0xf6, 0xa7, 0xb8, 0xc9, 0xd0, 0xe1,
          0xf2, 0xa3, 0xb4, 0xc5, 0xd6, 0xe7, 0xf8, 0xa9, 0xb0, 0xc1, 0xd2, 0xe3, 0xf4, 0xa5,
          0xb6, 0xc7, 0xd8, 0xe9, 0xf0, 0xa1, 0xb2]).count 0xB1 + 1) ∧
    (mk_freeze_script "02a1b2c3d4e5f6a7b8c9d0e1f2a3b4c5d6e7f8a9b0c1d2e3f4a5b6c7d8e9f0a1b2"
        1956528000).map (fun scr => scr.count 0x75) =
      Except.ok ((push_data (encode_scriptnum 1956528000)).count 0x75 +
        (push_data [0x02, 0xa1, 0xb2, 0xc3, 0xd4, 0xe5, 0xf6, 0xa7, 0xb8, 0xc9, 0xd0, 0xe1,
          0xf2, 0xa3, 0xb4, 0xc5, 0xd6, 0xe7, 0xf8, 0xa9, 0xb0, 0xc1, 0xd2, 0xe3, 0xf4, 0xa5,
          0xb6, 0xc7, 0xd8, 0xe9, 0xf0, 0xa1, 0xb2]).count 0x75 + 1) ∧
    (mk_freeze_script "02a1b2c3d4e5f6a7b8c9d0e1f2a3b4c5d6e7f8a9b0c1d2e3f4a5b6c7d8e9f0a1b2"
        1956528000).map (fun scr => scr.count 0xAC) =
      Except.ok ((push_data (encode_scriptnum 1956528000)).count 0xAC +
        (push_data [0x02, 0xa1, 0xb2, 0xc3, 0xd4, 0xe5, 0xf6, 0xa7, 0xb8, 0xc9, 0xd0, 0xe1,
          0xf2, 0xa3, 0xb4, 0xc5, 0xd6, 0xe7, 0xf8, 0xa9, 0xb0, 0xc1, 0xd2, 0xe3, 0xf4, 0xa5,
          0xb6, 0xc7, 0xd8, 0xe9, 0xf0, 0xa1, 0xb2]).count 0xAC + 1) :=
  ⟨mk_freeze_script_opcode_count _ _ 1956528000 0xB1 (by decide) (by decide) (by decide),
   mk_freeze_script_opcode_count _ _ 1956528000 0x75 (by decide) (by decide) (by decide),
   mk_freeze_script_opcode_count _ _ 1956528000 0xAC (by decide) (by decide) (by decide)⟩

/-- C4 counterexample: the hex string "02" followed by 32 copies of "ac" is
a valid 33-byte compressed-public-key input, yet the byte `0xAC` occurs 33
times — not exactly once — in the resulting redeem script. -/
theorem mk_freeze_script_opcode_count_cex :
    (hexDecode
        "02acacacacacacacacacacacacacacacacacacacacacacacacacacacacacacacac").map
      List.length = some 33 ∧
    (mk_freeze_script
        "02acacacacacacacacacacacacacacacacacacacacacacacacacacacacacacacac"
        1956528000).map (fun scr => scr.count 0xAC) = Except.ok 33 :=
  ⟨by decide, rfl⟩

/-- C5: on a hex key whose decoded byte length is not 33,
`mk_freeze_script` fails with the `ValueError` message naming the actual
decoded length and the expected length 33; on a 33-byte key no such error is
raised. -/
theorem mk_freeze_script_invalid_pubkey (s : String) (pk : List ℕ) (n : ℤ)
    (hdec : hexDecode s = some pk) :
    (pk.length ≠ 33 →
      mk_freeze_script s n =
        Except.error ("Invalid pubkey length: " ++ toString pk.length ++ ", expected 33")) ∧
    (pk.length = 33 → (mk_freeze_script s n).isOk = true) := by
  have hred : mk_freeze_script s n = mk_freeze_script_bytes pk n := by
    unfold mk_freeze_script
    rw [hdec]
  rw [hred]
  unfold mk_freeze_script_bytes
  constructor
  · intro h
    rw [if_pos h]
  · intro h
    rw [if_neg (by simp [h])]
    rfl

/-- Witness for C5: the test's malformed key "abcd" (2 decoded bytes) fails
with the message naming 2 and 33, and the test's 33-byte key succeeds. -/
theorem mk_freeze_script_invalid_pubkey_witness :
    mk_freeze_script "abcd" 1956528000 =
      Except.error "Invalid pubkey length: 2, expected 33" ∧
    (mk_freeze_script "02a1b2c3d4e5f6a7b8c9d0e1f2a3b4c5d6e7f8a9b0c1d2e3f4a5b6c7d8e9f0a1b2"
      1956528000).isOk = true :=
  ⟨(mk_freeze_script_invalid_pubkey "abcd" [0xab, 0xcd] 1956528000 (by decide)).1
      (by decide),
   (mk_freeze_script_invalid_pubkey
      "02a1b2c3d4e5f6a7b8c9d0e1f2a3b4c5d6e7f8a9b0c1d2e3f4a5b6c7d8e9f0a1b2"
      [0x02, 0xa1, 0xb2, 0xc3, 0xd4, 0xe5, 0xf6, 0xa7, 0xb8, 0xc9, 0xd0, 0xe1, 0xf2, 0xa3,
        0xb4, 0xc5, 0xd6, 0xe7, 0xf8, 0xa9, 0xb0, 0xc1, 0xd2, 0xe3, 0xf4, 0xa5, 0xb6, 0xc7,
        0xd8, 0xe9, 0xf0, 0xa1, 0xb2] 1956528000 (by decide)).2 (by decide)⟩

/-! ## Data model (`jmcore.models`)

Modelled from the spec: `jmcore/models.py` is not under `src/`.  The record
fields follow spec §3 and the field accesses made by the `src/` sources.
Python `None` becomes `Option`. -/

/-- Modelled from the spec (§3, `jmcore.models` missing from `src/`): a
fidelity bond record — counterparty, claimed UTXO (txid, vout), claimed
amount in satoshis, unlock time, resolved bond value, resolved confirmation
timestamp, and originating directory node. -/
structure FidelityBond where
  counterparty : String
  utxo_txid : String
  utxo_vout : ℕ
  amount : Option ℕ
  locktime : ℤ
  bond_value : Option ℚ
  utxo_confirmation_timestamp : Option ℤ
  directory_node : Option String
  deriving DecidableEq, Repr

/-- Modelled from the spec (§3): the fidelity-bond mapping attached to an
offer; it carries "at least the claimed collateral UTXO's transaction id",
each entry readable with Python `dict.get` (hence `Option`). -/
structure OfferBondData where
  utxo_txid : Option String
  utxo_vout : Option ℕ
  deriving DecidableEq, Repr

/-- Modelled from the spec (§3, `jmcore.models` missing from `src/`): an
advertised offer — counterparty, optional fidelity-bond data (absent or
empty mappings are both falsy in Python and modelled as `none`), resolved
`fidelity_bond_value`, and originating directory node.  The price/size terms
are pass-through data irrelevant to every claim and are not modelled. -/
structure Offer where
  counterparty : String
  fidelity_bond_data : Option OfferBondData
  fidelity_bond_value : Option ℚ
  directory_node : Option String
  deriving DecidableEq, Repr

/-! ## Mempool API (`jmcore/mempool_api.py`)

The HTTP collaborator is shallowly embedded as oracle arguments describing
the outcome of each network call; the functions under test are the pure
control flow of `MempoolAPI.get_utxo_confirmations` and of
`BondValidator.validate_bond`. -/

/-- One transaction output as parsed from the API (`TxOut`); only `value`
is read by the code under verification. -/
structure TxOut where
  value : ℕ
  deriving DecidableEq, Repr

/-- A transaction as parsed from the API (`Transaction` / `TxStatus`),
restricted to the fields the code under verification reads. -/
structure Transaction where
  confirmed : Bool
  block_height : Option ℤ
  block_time : Option ℤ
  vout : List TxOut
  deriving DecidableEq, Repr

/-- Outcome of `get_transaction(txid)` inside `get_utxo_confirmations`:
a parsed transaction, a `MempoolAPIError` (raised by `_get` on
`httpx.HTTPError` and caught by the enclosing `except MempoolAPIError`), or
any other exception (e.g. a pydantic validation error), which that handler
does not catch. -/
inductive TxFetch where
  | ok (tx : Transaction)
  | apiError
  | otherError
  deriving DecidableEq, Repr

/-- Outcome of `get_block_height()`: a height, or an `httpx` error — which
is not a `MempoolAPIError`, so the `except MempoolAPIError` handler of
`get_utxo_confirmations` does not catch it. -/
inductive TipFetch where
  | ok (height : ℤ)
  | httpError
  deriving DecidableEq, Repr

/-- Embedding of `MempoolAPI.get_utxo_confirmations` from `jmcore/mempool_api.py`:
returns `None` when the transaction lookup raises `MempoolAPIError`, when
the transaction is unconfirmed, or when it has no block height; otherwise
computes `max(0, current_height - block_height + 1)`.  An uncaught
exception is `Except.error`.  The `txid` and `vout` arguments only name the
UTXO; the body never reads `vout`. -/
def get_utxo_confirmations (txR : TxFetch) (tipR : TipFetch)
    (txid : String) (vout : ℕ) : Except Unit (Option ℤ) :=
  match txR with
  | .apiError => Except.ok none
  | .otherError => Except.error ()
  | .ok tx =>
    if tx.confirmed = false then Except.ok none
    else
      match tx.block_height with
      | none => Except.ok none
      | some h =>
        match tipR with
        | .httpError => Except.error ()
        | .ok current_height => Except.ok (some (max 0 (current_height - h + 1)))

/-- C10: whenever `get_utxo_confirmations` returns, the result is absent or
a non-negative count — even when the recorded block height exceeds the
current tip — and the result is entirely independent of the `vout`
argument. -/
theorem get_utxo_confirmations_nonneg_and_vout_free (txR : TxFetch)
    (tipR : TipFetch) (txid : String) (vout : ℕ) :
    (∀ r, get_utxo_confirmations txR tipR txid vout = Except.ok r →
      r = none ∨ ∃ k, r = some k ∧ 0 ≤ k) ∧
    (∀ vout', get_utxo_confirmations txR tipR txid vout =
      get_utxo_confirmations txR tipR txid vout') := by
  constructor
  · intro r hr
    unfold get_utxo_confirmations at hr
    split at hr
    · cases hr
      left
      rfl
    · cases hr
    · split at hr
      · cases hr
        left
        rfl
      · split at hr
        · cases hr
          left
          rfl
        · split at hr
          · cases hr
          · cases hr
            right
            exact ⟨_, rfl, le_max_left 0 _⟩
  · intro vout'
    rfl

/-- Witness for C10: a confirmed transaction recorded at height 100 while
the tip reports only 50 (the raw count would be negative) yields a
confirmation count of 0, not a negative number, and changing `vout` from 0
to 7 changes nothing. -/
theorem get_utxo_confirmations_nonneg_and_vout_free_witness :
    ((some (0 : ℤ) : Option ℤ) = none ∨
      ∃ k, (some (0 : ℤ) : Option ℤ) = some k ∧ 0 ≤ k) ∧
    get_utxo_confirmations (TxFetch.ok ⟨true, some 100, some 5, []⟩) (TipFetch.ok 50)
        "txid" 0 =
      get_utxo_confirmations (TxFetch.ok ⟨true, some 100, some 5, []⟩) (TipFetch.ok 50)
        "txid" 7 :=
  ⟨(get_utxo_confirmations_nonneg_and_vout_free (TxFetch.ok ⟨true, some 100, some 5, []⟩)
      (TipFetch.ok 50) "txid" 0).1 (some 0) rfl,
   (get_utxo_confirmations_nonneg_and_vout_free (TxFetch.ok ⟨true, some 100, some 5, []⟩)
      (TipFetch.ok 50) "txid" 0).2 7⟩

/-! ## Bond validator (`orderbook_watcher/bond_validator.py`) -/

/-- Outcome of one blockchain lookup made by `validate_bond`: a returned
value (`Option` for the API's `int | None`), or a raised exception — which
the surrounding `except Exception` turns into `False`. -/
inductive ApiResult (α : Type) where
  | ok (val : Option α)
  | exn
  deriving DecidableEq, Repr

/-- Second half of `BondValidator.validate_bond`
(`orderbook_watcher/bond_validator.py`): the UTXO-value lookup and the
comparison against the bond's claimed amount — `False` when the value is
unobtainable (`None` or a raised exception) or differs from the claimed
amount, `True` otherwise. -/
def validate_bond_value_check (value : ApiResult ℕ) (bond : FidelityBond) : Bool :=
  match value with
  | .exn => false
  | .ok none => false
  | .ok (some v) => if some v ≠ bond.amount then false else true

/-- Embedding of `BondValidator.validate_bond` from `orderbook_watcher/bond_validator.py`
as a function of the two lookup outcomes: `False` when confirmations are
unobtainable (`None` or a raised exception) or below 1, otherwise the value
check above.  The function is `Bool`-valued on every input — the model of
"never raises". -/
def validate_bond (confirmations : ApiResult ℤ) (value : ApiResult ℕ)
    (bond : FidelityBond) : Bool :=
  match confirmations with
  | .exn => false
  | .ok none => false
  | .ok (some c) =>
    if c < 1 then false
    else validate_bond_value_check value bond

/-- C7: `validate_bond` returns a boolean on every lookup outcome (never
raises), and returns `true` exactly when the confirmation lookup returned a
count of at least 1 and the value lookup returned exactly the bond's claimed
amount; every other outcome — unobtainable confirmations, fewer than 1
confirmation, unobtainable value, mismatched value — yields `false`. -/
theorem validate_bond_true_iff (confirmations : ApiResult ℤ) (value : ApiResult ℕ)
    (bond : FidelityBond) :
    validate_bond confirmations value bond = true ↔
      (∃ c, confirmations = ApiResult.ok (some c) ∧ 1 ≤ c) ∧
      (∃ a, bond.amount = some a ∧ value = ApiResult.ok (some a)) := by
  cases confirmations with
  | exn => simp [validate_bond]
  | ok oc =>
    cases oc with
    | none => simp [validate_bond]
    | some c =>
      by_cases hc : c < 1
      · simp only [validate_bond]
        rw [if_pos hc]
        simp only [Bool.false_eq_true, false_iff, not_and]
        intro ⟨c', hc', hc1⟩
        obtain rfl : c = c' := by
          cases hc'
          rfl
        exact absurd hc1 (by omega)
      · simp only [validate_bond]
        rw [if_neg hc]
        cases value with
        | exn => simp [validate_bond_value_check]
        | ok ov =>
          cases ov with
          | none => simp [validate_bond_value_check]
          | some v =>
            simp only [validate_bond_value_check]
            by_cases hv : some v = bond.amount
            · rw [if_neg (by simp [hv])]
              exact iff_of_true rfl ⟨⟨c, rfl, by omega⟩, ⟨v, hv.symm, rfl⟩⟩
            · rw [if_pos (by simp [hv])]
              simp only [Bool.false_eq_true, false_iff, not_and]
              intro _ ⟨a, ha, hval⟩
              obtain rfl : v = a := by
                cases hval
                rfl
              exact hv ha.symm

/-! ## Decimal representation facts

The aggregator's deduplication key is the Python f-string
`f"{bond.utxo_txid}:{bond.utxo_vout}"`.  To relate equality of keys to
equality of (txid, vout) pairs we prove that `Nat.repr` produces colon-free
digit strings and is injective. -/

/-- Decimal digit list of a natural number, most significant digit first:
the functional content of `Nat.toDigitsCore` freed of its fuel argument. -/
def decDigits (n : ℕ) : List Char :=
  if h : n < 10 then [Nat.digitChar n]
  else decDigits (n / 10) ++ [Nat.digitChar (n % 10)]
termination_by n
decreasing_by exact Nat.div_lt_self (by omega) (by norm_num)

/-- With enough fuel, `Nat.toDigitsCore` computes `decDigits` onto the
accumulator. -/
theorem toDigitsCore_eq_decDigits :
    ∀ f n acc, n < f → Nat.toDigitsCore 10 f n acc = decDigits n ++ acc := by
  intro f
  induction f with
  | zero => omega
  | succ f ih =>
    intro n acc hn
    show (if n / 10 = 0 then Nat.digitChar (n % 10) :: acc
      else Nat.toDigitsCore 10 f (n / 10) (Nat.digitChar (n % 10) :: acc)) = _
    by_cases hq : n / 10 = 0
    · have hn10 : n < 10 := by omega
      rw [if_pos hq, decDigits, dif_pos hn10, Nat.mod_eq_of_lt hn10]
      rfl
    · have hn10 : ¬n < 10 := by omega
      rw [if_neg hq, ih (n / 10) _ (by omega)]
      conv_rhs => rw [decDigits]
      rw [dif_neg hn10, List.append_assoc]
      rfl

/-- The characters of `Nat.repr` are `decDigits`. -/
theorem repr_data_eq_decDigits (n : ℕ) : (Nat.repr n).data = decDigits n := by
  show (Nat.toDigitsCore 10 (n + 1) n []).asString.data = decDigits n
  rw [toDigitsCore_eq_decDigits (n + 1) n [] (by omega), List.append_nil]
  rfl

/-- Digit characters of bounded digits are never a colon. -/
theorem digitChar_ne_colon {d : ℕ} (h : d < 10) : Nat.digitChar d ≠ ':' := by
  have : ∀ x : Fin 10, Nat.digitChar (x : ℕ) ≠ ':' := by decide
  exact this ⟨d, h⟩

/-- No decimal digit string contains a colon. -/
theorem decDigits_ne_colon : ∀ n, ∀ c ∈ decDigits n, c ≠ ':' := by
  intro n
  induction n using Nat.strong_induction_on with
  | _ n ih =>
    intro c hc
    by_cases h : n < 10
    · rw [decDigits, dif_pos h] at hc
      simp only [List.mem_singleton] at hc
      exact hc ▸ digitChar_ne_colon h
    · rw [decDigits, dif_neg h] at hc
      rcases List.mem_append.mp hc with hc' | hc'
      · exact ih (n / 10) (Nat.div_lt_self (by omega) (by norm_num)) c hc'
      · simp only [List.mem_singleton] at hc'
        exact hc' ▸ digitChar_ne_colon (Nat.mod_lt _ (by norm_num))

/-- Numeric value of a decimal digit character. -/
def decDigitVal (c : Char) : ℕ := c.toNat - '0'.toNat

/-- Left fold recovering a number from its digit characters. -/
def decStrVal (l : List Char) : ℕ := l.foldl (fun a c => 10 * a + decDigitVal c) 0

/-- Folding over digits recovers the digit values. -/
theorem decDigitVal_digitChar {d : ℕ} (h : d < 10) : decDigitVal (Nat.digitChar d) = d := by
  have : ∀ x : Fin 10, decDigitVal (Nat.digitChar (x : ℕ)) = (x : ℕ) := by decide
  exact this ⟨d, h⟩

/-- Folding back with `decStrVal` inverts `decDigits`: the digit string determines the
number. -/
theorem decStrVal_decDigits : ∀ n, decStrVal (decDigits n) = n := by
  intro n
  induction n using Nat.strong_induction_on with
  | _ n ih =>
    by_cases h : n < 10
    · rw [decDigits, dif_pos h]
      show 10 * 0 + decDigitVal (Nat.digitChar n) = n
      rw [decDigitVal_digitChar h]
      omega
    · rw [decDigits, dif_neg h]
      show List.foldl _ 0 (decDigits (n / 10) ++ [Nat.digitChar (n % 10)]) = n
      rw [List.foldl_append]
      show 10 * decStrVal (decDigits (n / 10)) + decDigitVal (Nat.digitChar (n % 10)) = n
      rw [ih (n / 10) (Nat.div_lt_self (by omega) (by norm_num)),
        decDigitVal_digitChar (Nat.mod_lt _ (by norm_num))]
      omega

/-- Injectivity of `Nat.repr`. -/
theorem nat_repr_injective {a b : ℕ} (h : Nat.repr a = Nat.repr b) : a = b := by
  have hd : decDigits a = decDigits b := by
    rw [← repr_data_eq_decDigits, ← repr_data_eq_decDigits, h]
  calc a = decStrVal (decDigits a) := (decStrVal_decDigits a).symm
    _ = decStrVal (decDigits b) := by rw [hd]
    _ = b := decStrVal_decDigits b

/-- Strings with equal character data are equal. -/
theorem string_eq_of_data_eq {a b : String} (h : a.data = b.data) : a = b := by
  cases a
  cases b
  exact congrArg String.mk h

/-- Splitting at a separator that occurs in neither right-hand part is
unambiguous. -/
theorem append_colon_inj :
    ∀ (xs ys ds es : List Char), (∀ c ∈ ds, c ≠ ':') → (∀ c ∈ es, c ≠ ':') →
      xs ++ ':' :: ds = ys ++ ':' :: es → xs = ys ∧ ds = es := by
  intro xs
  induction xs with
  | nil =>
    intro ys ds es hds hes h
    cases ys with
    | nil =>
      simp only [List.nil_append, List.cons.injEq] at h
      exact ⟨rfl, h.2⟩
    | cons y ys0 =>
      simp only [List.nil_append, List.cons_append, List.cons.injEq] at h
      exact absurd rfl (hds ':' (h.2 ▸ List.mem_append_right ys0 (List.mem_cons_self ':' es)))
  | cons x xs0 ih =>
    intro ys ds es hds hes h
    cases ys with
    | nil =>
      simp only [List.cons_append, List.nil_append, List.cons.injEq] at h
      exact absurd rfl
        (hes ':' (h.2.symm ▸ List.mem_append_right xs0 (List.mem_cons_self ':' ds)))
    | cons y ys0 =>
      simp only [List.cons_append, List.cons.injEq] at h
      obtain ⟨hxs, hds⟩ := ih ys0 ds es hds hes h.2
      exact ⟨by rw [h.1, hxs], hds⟩

/-! ## Live-orderbook deduplication (`OrderbookAggregator.get_live_orderbook`) -/

/-- Python f-string `f"{bond.utxo_txid}:{bond.utxo_vout}"` used by
`get_live_orderbook` both as the deduplication key and as the value-cache
key. -/
def bond_cache_key (b : FidelityBond) : String :=
  b.utxo_txid ++ ":" ++ toString b.utxo_vout

/-- Equal cache keys force equal (txid, vout) pairs. -/
theorem bond_cache_key_inj {a b : FidelityBond}
    (h : bond_cache_key a = bond_cache_key b) :
    a.utxo_txid = b.utxo_txid ∧ a.utxo_vout = b.utxo_vout := by
  have hdata : a.utxo_txid.data ++ ':' :: (Nat.repr a.utxo_vout).data =
      b.utxo_txid.data ++ ':' :: (Nat.repr b.utxo_vout).data := by
    have := congrArg String.data h
    simpa [bond_cache_key, String.data_append] using this
  have hsplit := append_colon_inj a.utxo_txid.data b.utxo_txid.data
    (Nat.repr a.utxo_vout).data (Nat.repr b.utxo_vout).data
    (by rw [repr_data_eq_decDigits]; exact decDigits_ne_colon _)
    (by rw [repr_data_eq_decDigits]; exact decDigits_ne_colon _) hdata
  exact ⟨string_eq_of_data_eq hsplit.1,
    nat_repr_injective (string_eq_of_data_eq hsplit.2)⟩

/-- One step of the deduplication loop of `get_live_orderbook`
(`orderbook_watcher/aggregator.py` lines 205–210): Python's
insertion-ordered dict `unique_bonds` is an association list to which a
`(cache_key, bond)` pair is appended only when the key is not yet
present. -/
def dedup_fold : List FidelityBond → List (String × FidelityBond) →
    List (String × FidelityBond)
  | [], acc => acc
  | b :: rest, acc =>
    if bond_cache_key b ∈ acc.map Prod.fst then dedup_fold rest acc
    else dedup_fold rest (acc ++ [(bond_cache_key b, b)])

/-- The deduplication performed by `get_live_orderbook` on the merged bond
list: run the loop from an empty dict and take
`list(unique_bonds.values())` (insertion order). -/
def dedup_bonds (l : List FidelityBond) : List FidelityBond :=
  (dedup_fold l []).map Prod.snd

/-- Seen-set formulation of first-seen-wins deduplication, used to reason
about `dedup_fold`. -/
def dedup_aux : List String → List FidelityBond → List FidelityBond
  | _, [] => []
  | seen, b :: rest =>
    if bond_cache_key b ∈ seen then dedup_aux seen rest
    else b :: dedup_aux (bond_cache_key b :: seen) rest

/-- The result of `dedup_aux` only depends on the seen set up to membership. -/
theorem dedup_aux_congr : ∀ (l : List FidelityBond) (s s' : List String),
    (∀ x, x ∈ s ↔ x ∈ s') → dedup_aux s l = dedup_aux s' l := by
  intro l
  induction l with
  | nil => intro s s' h; rfl
  | cons b rest ih =>
    intro s s' h
    by_cases hb : bond_cache_key b ∈ s
    · rw [dedup_aux, if_pos hb, dedup_aux, if_pos ((h _).mp hb)]
      exact ih s s' h
    · rw [dedup_aux, if_neg hb, dedup_aux, if_neg (fun hx => hb ((h _).mpr hx))]
      refine congrArg _ (ih _ _ (fun x => ?_))
      simp only [List.mem_cons]
      rw [h x]

/-- The association-list fold computes `dedup_aux` of the accumulated key
set, appended to the already-accumulated bonds. -/
theorem dedup_fold_spec : ∀ (l : List FidelityBond) (acc : List (String × FidelityBond)),
    (dedup_fold l acc).map Prod.snd =
      acc.map Prod.snd ++ dedup_aux (acc.map Prod.fst) l := by
  intro l
  induction l with
  | nil => intro acc; rw [dedup_fold, dedup_aux, List.append_nil]
  | cons b rest ih =>
    intro acc
    by_cases hb : bond_cache_key b ∈ acc.map Prod.fst
    · rw [dedup_fold, if_pos hb, ih, dedup_aux, if_pos hb]
    · rw [dedup_fold, if_neg hb, ih, dedup_aux, if_neg hb]
      simp only [List.map_append, List.map_cons, List.map_nil]
      rw [List.append_assoc]
      refine congrArg _ ?_
      show [b] ++ _ = b :: _
      refine congrArg _ (dedup_aux_congr rest _ _ (fun x => ?_))
      simp only [List.mem_append, List.mem_cons, List.mem_singleton,
        List.not_mem_nil, or_false]
      exact or_comm

/-- The output of `dedup_aux` has pairwise-distinct cache keys, none of
them in the seen set. -/
theorem dedup_aux_pairwise : ∀ (l : List FidelityBond) (seen : List String),
    List.Pairwise (fun a b => bond_cache_key a ≠ bond_cache_key b)
      (dedup_aux seen l) ∧
    ∀ b ∈ dedup_aux seen l, bond_cache_key b ∉ seen := by
  intro l
  induction l with
  | nil => intro seen; exact ⟨List.Pairwise.nil, by intro b hb; cases hb⟩
  | cons b rest ih =>
    intro seen
    by_cases hb : bond_cache_key b ∈ seen
    · rw [dedup_aux, if_pos hb]
      exact ih seen
    · rw [dedup_aux, if_neg hb]
      obtain ⟨hp, hs⟩ := ih (bond_cache_key b :: seen)
      refine ⟨List.Pairwise.cons ?_ hp, ?_⟩
      · intro x hx
        have hx' := hs x hx
        simp only [List.mem_cons, not_or] at hx'
        exact fun he => hx'.1 he.symm
      · intro x hx
        rcases List.mem_cons.mp hx with rfl | hx'
        · exact hb
        · have hx'' := hs x hx'
          simp only [List.mem_cons, not_or] at hx''
          exact hx''.2

/-- Membership in a `dedup_aux` result is exactly being the first bond of
one's cache key, the key not being previously seen. -/
theorem dedup_aux_mem_iff : ∀ (l : List FidelityBond) (seen : List String)
    (b : FidelityBond),
    b ∈ dedup_aux seen l ↔
      bond_cache_key b ∉ seen ∧
        (l.filter (fun x => decide (bond_cache_key x = bond_cache_key b))).head? =
          some b := by
  intro l
  induction l with
  | nil =>
    intro seen b
    constructor
    · intro h
      cases h
    · intro ⟨_, h⟩
      cases h
  | cons a rest ih =>
    intro seen b
    by_cases hk : bond_cache_key a = bond_cache_key b
    · have hfil : (a :: rest).filter
          (fun x => decide (bond_cache_key x = bond_cache_key b)) =
          a :: rest.filter (fun x => decide (bond_cache_key x = bond_cache_key b)) :=
        List.filter_cons_of_pos (by simp [hk])
      by_cases hs : bond_cache_key a ∈ seen
      · rw [dedup_aux, if_pos hs, ih]
        constructor
        · intro hmem
          exact absurd (hk ▸ hs) hmem.1
        · intro hmem
          exact absurd (hk ▸ hs) hmem.1
      · rw [dedup_aux, if_neg hs]
        constructor
        · intro hmem
          rcases List.mem_cons.mp hmem with rfl | hmem'
          · refine ⟨hk ▸ hs, ?_⟩
            rw [hfil]
            rfl
          · obtain ⟨hnotin, _⟩ := (ih _ b).mp hmem'
            exact absurd (List.mem_cons_self _ _) (hk ▸ hnotin)
        · intro ⟨hnb, hhead⟩
          rw [hfil] at hhead
          obtain rfl : a = b := by
            simpa using hhead
          exact List.mem_cons_self a _
    · have hfil : (a :: rest).filter
          (fun x => decide (bond_cache_key x = bond_cache_key b)) =
          rest.filter (fun x => decide (bond_cache_key x = bond_cache_key b)) :=
        List.filter_cons_of_neg (by simp [hk])
      by_cases hs : bond_cache_key a ∈ seen
      · rw [dedup_aux, if_pos hs, ih, hfil]
      · rw [dedup_aux, if_neg hs]
        constructor
        · intro hmem
          rcases List.mem_cons.mp hmem with rfl | hmem'
          · exact absurd rfl hk
          · obtain ⟨hnotin, hhead⟩ := (ih _ b).mp hmem'
            simp only [List.mem_cons, not_or] at hnotin
            exact ⟨hnotin.2, hfil ▸ hhead⟩
        · intro ⟨hnb, hhead⟩
          refine List.mem_cons_of_mem a ((ih _ b).mpr ⟨?_, hfil ▸ hhead⟩)
          simp only [List.mem_cons, not_or]
          exact ⟨fun he => hk he.symm, hnb⟩

/-- On bonds with pairwise-distinct keys, none previously seen, `dedup_aux`
is the identity. -/
theorem dedup_aux_of_distinct : ∀ (l : List FidelityBond) (seen : List String),
    (∀ x ∈ l, bond_cache_key x ∉ seen) →
    List.Pairwise (fun a b => bond_cache_key a ≠ bond_cache_key b) l →
    dedup_aux seen l = l := by
  intro l
  induction l with
  | nil => intro seen _ _; rfl
  | cons a rest ih =>
    intro seen hseen hpw
    rw [dedup_aux, if_neg (hseen a (List.mem_cons_self a rest))]
    refine congrArg _ (ih _ ?_ (List.Pairwise.sublist (List.sublist_cons_self a rest) hpw))
    intro x hx
    simp only [List.mem_cons, not_or]
    exact ⟨fun he => (List.rel_of_pairwise_cons hpw hx) he.symm,
      hseen x (List.mem_cons_of_mem a hx)⟩

/-- C1: the deduplicated bond list of `get_live_orderbook` holds at most
one bond per (txid, vout) pair; a bond survives exactly when it is the
first of the merged input list carrying its (txid, vout) pair — first seen
wins, later duplicates are dropped unmerged; and an input whose (txid,
vout) pairs are pairwise distinct passes through unchanged. -/
theorem dedup_bonds_spec (l : List FidelityBond) :
    List.Pairwise
      (fun a b => ¬(a.utxo_txid = b.utxo_txid ∧ a.utxo_vout = b.utxo_vout))
      (dedup_bonds l) ∧
    (∀ b, b ∈ dedup_bonds l ↔
      (l.filter (fun x =>
        decide (x.utxo_txid = b.utxo_txid ∧ x.utxo_vout = b.utxo_vout))).head? =
        some b) ∧
    (List.Pairwise
      (fun a b => ¬(a.utxo_txid = b.utxo_txid ∧ a.utxo_vout = b.utxo_vout)) l →
      dedup_bonds l = l) := by
  have hdb : dedup_bonds l = dedup_aux [] l := by
    rw [dedup_bonds, dedup_fold_spec]
    rfl
  refine ⟨?_, ?_, ?_⟩
  · rw [hdb]
    refine List.Pairwise.imp ?_ (dedup_aux_pairwise l []).1
    intro a b hne hpair
    exact hne (by rw [bond_cache_key, bond_cache_key, hpair.1, hpair.2])
  · intro b
    rw [hdb, dedup_aux_mem_iff]
    have hfe : ∀ x ∈ l, (decide (bond_cache_key x = bond_cache_key b)) =
        decide (x.utxo_txid = b.utxo_txid ∧ x.utxo_vout = b.utxo_vout) := by
      intro x hx
      by_cases hkey : bond_cache_key x = bond_cache_key b
      · simp [hkey, bond_cache_key_inj hkey]
      · have hpair : ¬(x.utxo_txid = b.utxo_txid ∧ x.utxo_vout = b.utxo_vout) :=
          fun hp => hkey (by rw [bond_cache_key, bond_cache_key, hp.1, hp.2])
        simp [hkey, hpair]
    rw [List.filter_congr hfe]
    simp
  · intro hpw
    rw [hdb]
    refine dedup_aux_of_distinct l [] (by intro x _ h; cases h) ?_
    refine List.Pairwise.imp ?_ hpw
    intro a b hne hkey
    exact hne (bond_cache_key_inj hkey)

/-- Witness for C1: a merged list with two bonds on the same (txid, vout)
from different counterparties and one distinct bond keeps the first and the
distinct one; a list of pairwise-distinct bonds passes through whole. -/
theorem dedup_bonds_spec_witness :
    dedup_bonds
      [⟨"maker1", "aa11", 0, none, 0, none, none, none⟩,
       ⟨"maker2", "bb22", 1, none, 0, none, none, none⟩] =
      [⟨"maker1", "aa11", 0, none, 0, none, none, none⟩,
       ⟨"maker2", "bb22", 1, none, 0, none, none, none⟩] ∧
    dedup_bonds
      [⟨"maker1", "aa11", 0, none, 0, none, none, none⟩,
       ⟨"maker2", "aa11", 0, none, 0, none, none, none⟩,
       ⟨"maker3", "bb22", 1, none, 0, none, none, none⟩] =
      [⟨"maker1", "aa11", 0, none, 0, none, none, none⟩,
       ⟨"maker3", "bb22", 1, none, 0, none, none, none⟩] :=
  ⟨(dedup_bonds_spec _).2.2 (by decide), by decide⟩

/-! ## Offer value back-propagation (`OrderbookAggregator.get_live_orderbook`,
lines 235–244) -/

/-- The list comprehension `matching_bonds` of `get_live_orderbook`: bonds
with the offer's counterparty whose txid equals the offer data's
`utxo_txid` entry (read with `dict.get`, hence `Option`); the output index
is not part of the comparison. -/
def matching_bonds (bonds : List FidelityBond) (o : Offer) (d : OfferBondData) :
    List FidelityBond :=
  bonds.filter (fun b => decide (b.counterparty = o.counterparty ∧
    some b.utxo_txid = d.utxo_txid))

/-- Assignment `offer.fidelity_bond_value = matching_bonds[0].bond_value`,
guarded by `matching_bonds[0].bond_value is not None`. -/
def attach_value_opt : Option ℚ → Offer → Offer
  | some v, o => { o with fidelity_bond_value := some v }
  | none, o => o

/-- Branch on `if matching_bonds:` — an empty match list leaves the offer
unchanged, otherwise the first match's value is considered. -/
def attach_from_matches : List FidelityBond → Offer → Offer
  | [], o => o
  | b :: _, o => attach_value_opt b.bond_value o

/-- The per-offer body of the back-propagation loop of
`get_live_orderbook` (lines 235–244), guarded by
`if offer.fidelity_bond_data:`. -/
def attach_bond_value (bonds : List FidelityBond) (o : Offer) : Offer :=
  match o.fidelity_bond_data with
  | none => o
  | some d => attach_from_matches (matching_bonds bonds o d) o

/-- C9 (amended): the back-propagation step of `get_live_orderbook` matches
offers to bonds by counterparty and transaction id only — the output index
is never compared — and assigns the first matching bond's computed value to
the offer; offers without bond data, offers with no (counterparty, txid)
match, and offers whose first match carries no computed value are left
unchanged. -/
theorem attach_bond_value_spec (bonds : List FidelityBond) (o : Offer) :
    (o.fidelity_bond_data = none → attach_bond_value bonds o = o) ∧
    (∀ d, o.fidelity_bond_data = some d →
      (∀ b, b ∈ matching_bonds bonds o d ↔
        b ∈ bonds ∧ b.counterparty = o.counterparty ∧ some b.utxo_txid = d.utxo_txid) ∧
      (matching_bonds bonds o d = [] → attach_bond_value bonds o = o) ∧
      (∀ b rest, matching_bonds bonds o d = b :: rest →
        (b.bond_value = none → attach_bond_value bonds o = o) ∧
        (∀ v, b.bond_value = some v →
          attach_bond_value bonds o = { o with fidelity_bond_value := some v }))) := by
  constructor
  · intro h
    rw [attach_bond_value, h]
  · intro d hd
    refine ⟨?_, ?_, ?_⟩
    · intro b
      rw [matching_bonds, List.mem_filter]
      simp
    · intro hempty
      rw [attach_bond_value, hd]
      show attach_from_matches (matching_bonds bonds o d) o = o
      rw [hempty]
      rfl
    · intro b rest hmatch
      constructor
      · intro hv
        rw [attach_bond_value, hd]
        show attach_from_matches (matching_bonds bonds o d) o = o
        rw [hmatch, attach_from_matches, hv]
        rfl
      · intro v hv
        rw [attach_bond_value, hd]
        show attach_from_matches (matching_bonds bonds o d) o = _
        rw [hmatch, attach_from_matches, hv]
        cases o
        cases hd
        rfl

/-- Witness for C9 (amended): a bond with computed value 7 and an offer of
the same counterparty whose data carries the bond's txid receives value 7;
an offer with a different txid is left unchanged. -/
theorem attach_bond_value_spec_witness :
    attach_bond_value [⟨"makerA", "feed", 0, none, 0, some 7, none, none⟩]
        ⟨"makerA", some ⟨some "feed", some 0⟩, none, none⟩ =
      ⟨"makerA", some ⟨some "feed", some 0⟩, some 7, none⟩ ∧
    attach_bond_value [⟨"makerA", "feed", 0, none, 0, some 7, none, none⟩]
        ⟨"makerA", some ⟨some "beef", some 0⟩, none, none⟩ =
      ⟨"makerA", some ⟨some "beef", some 0⟩, none, none⟩ :=
  ⟨(((attach_bond_value_spec [⟨"makerA", "feed", 0, none, 0, some 7, none, none⟩]
      ⟨"makerA", some ⟨some "feed", some 0⟩, none, none⟩).2 ⟨some "feed", some 0⟩
      rfl).2.2 ⟨"makerA", "feed", 0, none, 0, some 7, none, none⟩ [] (by decide)).2 7 rfl,
   ((attach_bond_value_spec [⟨"makerA", "feed", 0, none, 0, some 7, none, none⟩]
      ⟨"makerA", some ⟨some "beef", some 0⟩, none, none⟩).2 ⟨some "beef", some 0⟩
      rfl).2.1 (by decide)⟩

/-- C9 counterexample: a single bond on UTXO ("feed", 0) with computed
value 7 and an offer of the same counterparty whose bond data references
the different UTXO ("feed", 99): the claim says such an offer is left
unchanged, but the code — matching by txid only — assigns it the value 7. -/
theorem attach_bond_value_cex :
    (⟨"makerA", some ⟨some "feed", some 99⟩, none, none⟩ : Offer).fidelity_bond_data =
      some ⟨some "feed", some 99⟩ ∧
    (⟨"makerA", "feed", 0, none, 0, some 7, none, none⟩ : FidelityBond).utxo_vout = 0 ∧
    (99 : ℕ) ≠ 0 ∧
    attach_bond_value [⟨"makerA", "feed", 0, none, 0, some 7, none, none⟩]
        ⟨"makerA", some ⟨some "feed", some 99⟩, none, none⟩ =
      ⟨"makerA", some ⟨some "feed", some 99⟩, some 7, none⟩ :=
  ⟨rfl, rfl, by decide, by decide⟩

/-! ## Aggregation cycle (`OrderbookAggregator.update_orderbook`)

`fetch_from_directory` and `update_orderbook` are in `src/`; the
`OrderBook` container with its `add_offers` / `add_fidelity_bonds` methods
lives in the missing `jmcore/models.py` and is modelled from the spec. -/

/-- Modelled from the spec (§3, `jmcore.models` missing from `src/`): an
order-book snapshot — ordered offers, bonds, contributing directory nodes,
creation timestamp. -/
structure OrderBook where
  offers : List Offer
  fidelity_bonds : List FidelityBond
  directory_nodes : List String
  timestamp : ℤ

/-- Modelled from the spec (§4.2: "offers are simply concatenated with
their source node tagged on"): append offers and record the contributing
node. -/
def OrderBook.add_offers (ob : OrderBook) (offers : List Offer) (nid : String) :
    OrderBook :=
  { ob with
    offers := ob.offers ++ offers
    directory_nodes := ob.directory_nodes ++ [nid] }

/-- Modelled from the spec (§4.2): bonds are likewise appended; the
deduplication step is separate (`dedup_bonds`). -/
def OrderBook.add_fidelity_bonds (ob : OrderBook) (bonds : List FidelityBond)
    (nid : String) : OrderBook :=
  { ob with fidelity_bonds := ob.fidelity_bonds ++ bonds }

/-- Node identifier `f"{onion_address}:{port}"`. -/
def node_id (onion_address : String) (port : ℕ) : String :=
  onion_address ++ ":" ++ toString port

/-- Simulated behaviour of one directory node during a fetch: the offers
and bonds its `fetch_orderbooks` would deliver, whether the `try` body of
`fetch_from_directory` raises (caught there), and whether the `finally`
`client.close()` raises (not caught there; `asyncio.gather(...,
return_exceptions=True)` hands `update_orderbook` the exception, which it
skips). -/
structure NodeSim where
  offers : List Offer
  bonds : List FidelityBond
  fetch_raises : Bool
  close_raises : Bool

/-- Embedding of `OrderbookAggregator.fetch_from_directory`
(`orderbook_watcher/aggregator.py` lines 56–77): on success the fetched
offers and bonds are tagged with the node id; an exception in the `try`
body degrades the node to empty lists; an exception from the `finally`
close escapes the coroutine (in Python a `finally` exception supersedes
both the `return` and any caught exception, so it is checked first). -/
def fetch_from_directory (onion_address : String) (port : ℕ) (sim : NodeSim) :
    Except Unit (List Offer × List FidelityBond × String) :=
  let nid := node_id onion_address port
  if sim.close_raises then Except.error ()
  else if sim.fetch_raises then Except.ok ([], [], nid)
  else Except.ok
    (sim.offers.map (fun o => { o with directory_node := some nid }),
     sim.bonds.map (fun b => { b with directory_node := some nid }), nid)

/-- Blockchain oracle for `_calculate_bond_value_single`: the outcome of
`await self.mempool_api.get_transaction(txid)`; `Except.error` models any
raised exception, which the surrounding `except Exception` handler turns
into "leave the bond unchanged". -/
def TxOracle : Type := String → Except Unit Transaction

/-- Embedding of `OrderbookAggregator._calculate_bond_value_single` (lines 248–292):
an already-valued bond is returned as is; a failed lookup, an unconfirmed
transaction, or an out-of-range output index leaves the bond unchanged;
otherwise the on-chain amount and confirmation time (Python
`block_time or current_time`, so a falsy `0` also falls back) feed the bond
value model and are written onto the bond. -/
def calculate_bond_value_single (oracle : TxOracle) (current_time : ℤ)
    (bond : FidelityBond) : FidelityBond :=
  if bond.bond_value ≠ none then bond
  else
    match oracle bond.utxo_txid with
    | Except.error _ => bond
    | Except.ok tx =>
      if tx.confirmed = false then bond
      else if tx.vout.length ≤ bond.utxo_vout then bond
      else
        let amount := (tx.vout.getD bond.utxo_vout ⟨0⟩).value
        let confirmation_time :=
          match tx.block_time with
          | none => current_time
          | some t => if t = 0 then current_time else t
        { bond with
          bond_value := some (calculate_timelocked_fidelity_bond_value amount
            confirmation_time bond.locktime current_time
            default_interest_rate default_exponent)
          amount := some amount
          utxo_confirmation_timestamp := some confirmation_time }

/-- Embedding of `OrderbookAggregator._calculate_bond_values` (lines 294–301): value
every bond of the snapshot in place (the `asyncio.gather` of per-bond
mutations). -/
def calculate_bond_values (oracle : TxOracle) (current_time : ℤ)
    (ob : OrderBook) : OrderBook :=
  { ob with fidelity_bonds :=
      ob.fidelity_bonds.map (calculate_bond_value_single oracle current_time) }

/-- One iteration of the result loop of `update_orderbook` (lines 89–97):
exceptions surfaced by `gather` are skipped; a non-empty result is merged
into the snapshot. -/
def merge_step (ob : OrderBook) :
    Except Unit (List Offer × List FidelityBond × String) → OrderBook
  | Except.error _ => ob
  | Except.ok x =>
    if x.1 = [] ∧ x.2.1 = [] then ob
    else (ob.add_offers x.1 x.2.2).add_fidelity_bonds x.2.1 x.2.2

/-- Embedding of `OrderbookAggregator.update_orderbook` (lines 79–110): fetch from every
configured node, merge the per-node results into a fresh snapshot (failures
skipped), then run bond valuation over it.  The atomic swap of the current
snapshot under the lock is a concurrency detail outside the shallow
embedding; the returned snapshot is modelled. -/
def update_orderbook (nodes : List ((String × ℕ) × NodeSim)) (oracle : TxOracle)
    (now : ℤ) : OrderBook :=
  let results := nodes.map (fun p => fetch_from_directory p.1.1 p.1.2 p.2)
  calculate_bond_values oracle now
    (results.foldl merge_step ⟨[], [], [], now⟩)

/-- Selector for the offers of a successful fetch result. -/
def fetch_offers_ok :
    Except Unit (List Offer × List FidelityBond × String) → Option (List Offer)
  | Except.error _ => none
  | Except.ok x => some x.1

/-- Selector for the bonds of a successful fetch result. -/
def fetch_bonds_ok :
    Except Unit (List Offer × List FidelityBond × String) →
      Option (List FidelityBond)
  | Except.error _ => none
  | Except.ok x => some x.2.1

/-- A node whose fetch and close both succeed. -/
def node_ok (p : (String × ℕ) × NodeSim) : Bool :=
  !p.2.fetch_raises && !p.2.close_raises

/-- The offers a healthy node contributes, tagged with its node id. -/
def node_tagged_offers (p : (String × ℕ) × NodeSim) : List Offer :=
  p.2.offers.map (fun o => { o with directory_node := some (node_id p.1.1 p.1.2) })

/-- The bonds a healthy node contributes, tagged with its node id. -/
def node_tagged_bonds (p : (String × ℕ) × NodeSim) : List FidelityBond :=
  p.2.bonds.map (fun b => { b with directory_node := some (node_id p.1.1 p.1.2) })

/-- The merge fold accumulates exactly the offers and bonds of the
successful results. -/
theorem merge_fold_spec :
    ∀ (rs : List (Except Unit (List Offer × List FidelityBond × String)))
      (ob : OrderBook),
    (rs.foldl merge_step ob).offers =
      ob.offers ++ (rs.filterMap fetch_offers_ok).flatten ∧
    (rs.foldl merge_step ob).fidelity_bonds =
      ob.fidelity_bonds ++ (rs.filterMap fetch_bonds_ok).flatten := by
  intro rs
  induction rs with
  | nil => intro ob; simp
  | cons r rest ih =>
    intro ob
    cases r with
    | error e =>
      show (rest.foldl merge_step (merge_step ob (Except.error e))).offers = _ ∧
        (rest.foldl merge_step (merge_step ob (Except.error e))).fidelity_bonds = _
      rw [merge_step]
      simp only [List.filterMap_cons]
      exact ih ob
    | ok x =>
      show (rest.foldl merge_step (merge_step ob (Except.ok x))).offers = _ ∧
        (rest.foldl merge_step (merge_step ob (Except.ok x))).fidelity_bonds = _
      rw [merge_step]
      simp only [List.filterMap_cons, fetch_offers_ok, fetch_bonds_ok,
        List.flatten_cons]
      by_cases hx : x.1 = [] ∧ x.2.1 = []
      · rw [if_pos hx, hx.1, hx.2]
        simp only [List.nil_append]
        exact ih ob
      · rw [if_neg hx]
        obtain ⟨h1, h2⟩ := ih ((ob.add_offers x.1 x.2.2).add_fidelity_bonds x.2.1 x.2.2)
        constructor
        · rw [h1]
          show (ob.offers ++ x.1) ++ _ = _
          rw [List.append_assoc]
        · rw [h2]
          show (ob.fidelity_bonds ++ x.2.1) ++ _ = _
          rw [List.append_assoc]

/-- Joined offers of the fetch results are the joined tagged offers of the
healthy nodes. -/
theorem fetch_results_offers :
    ∀ nodes : List ((String × ℕ) × NodeSim),
    ((nodes.map (fun p => fetch_from_directory p.1.1 p.1.2 p.2)).filterMap
      fetch_offers_ok).flatten =
      ((nodes.filter node_ok).map node_tagged_offers).flatten := by
  intro nodes
  induction nodes with
  | nil => rfl
  | cons p rest ih =>
    simp only [List.map_cons, List.filter_cons]
    rw [fetch_from_directory]
    by_cases hcl : p.2.close_raises
    · rw [if_pos hcl]
      have : node_ok p = false := by
        simp [node_ok, hcl]
      rw [this]
      simp only [List.filterMap_cons, fetch_offers_ok, Bool.false_eq_true,
        if_false]
      exact ih
    · rw [if_neg hcl]
      by_cases hf : p.2.fetch_raises
      · rw [if_pos hf]
        have : node_ok p = false := by
          simp [node_ok, hf]
        rw [this]
        simp only [List.filterMap_cons, fetch_offers_ok, List.flatten_cons,
          Bool.false_eq_true, if_false, List.nil_append]
        exact ih
      · rw [if_neg hf]
        have : node_ok p = true := by
          simp [node_ok, hcl, hf]
        rw [this]
        simp only [List.filterMap_cons, fetch_offers_ok, List.flatten_cons, if_true]
        rw [ih]
        rfl

/-- Joined bonds of the fetch results are the joined tagged bonds of the
healthy nodes. -/
theorem fetch_results_bonds :
    ∀ nodes : List ((String × ℕ) × NodeSim),
    ((nodes.map (fun p => fetch_from_directory p.1.1 p.1.2 p.2)).filterMap
      fetch_bonds_ok).flatten =
      ((nodes.filter node_ok).map node_tagged_bonds).flatten := by
  intro nodes
  induction nodes with
  | nil => rfl
  | cons p rest ih =>
    simp only [List.map_cons, List.filter_cons]
    rw [fetch_from_directory]
    by_cases hcl : p.2.close_raises
    · rw [if_pos hcl]
      have : node_ok p = false := by
        simp [node_ok, hcl]
      rw [this]
      simp only [List.filterMap_cons, fetch_bonds_ok, Bool.false_eq_true,
        if_false]
      exact ih
    · rw [if_neg hcl]
      by_cases hf : p.2.fetch_raises
      · rw [if_pos hf]
        have : node_ok p = false := by
          simp [node_ok, hf]
        rw [this]
        simp only [List.filterMap_cons, fetch_bonds_ok, List.flatten_cons,
          Bool.false_eq_true, if_false, List.nil_append]
        exact ih
      · rw [if_neg hf]
        have : node_ok p = true := by
          simp [node_ok, hcl, hf]
        rw [this]
        simp only [List.filterMap_cons, fetch_bonds_ok, List.flatten_cons, if_true]
        rw [ih]
        rfl

/-- C8: `update_orderbook` always returns a snapshot; a node whose fetch or
close raises contributes nothing, while every healthy node's offers and
bonds appear in the returned snapshot — the offers exactly, the bonds up to
in-place valuation, which never changes a bond's identity fields. -/
theorem update_orderbook_isolates_failures
    (nodes : List ((String × ℕ) × NodeSim)) (oracle : TxOracle) (now : ℤ) :
    (update_orderbook nodes oracle now).offers =
      ((nodes.filter node_ok).map node_tagged_offers).flatten ∧
    (update_orderbook nodes oracle now).fidelity_bonds =
      (((nodes.filter node_ok).map node_tagged_bonds).flatten).map
        (calculate_bond_value_single oracle now) ∧
    (∀ b : FidelityBond,
      (calculate_bond_value_single oracle now b).counterparty = b.counterparty ∧
      (calculate_bond_value_single oracle now b).utxo_txid = b.utxo_txid ∧
      (calculate_bond_value_single oracle now b).utxo_vout = b.utxo_vout ∧
      (calculate_bond_value_single oracle now b).locktime = b.locktime ∧
      (calculate_bond_value_single oracle now b).directory_node = b.directory_node) := by
  obtain ⟨h1, h2⟩ := merge_fold_spec
    (nodes.map (fun p => fetch_from_directory p.1.1 p.1.2 p.2)) ⟨[], [], [], now⟩
  refine ⟨?_, ?_, ?_⟩
  · show (calculate_bond_values oracle now _).offers = _
    rw [calculate_bond_values]
    show (List.foldl merge_step _ _).offers = _
    rw [h1]
    simpa using fetch_results_offers nodes
  · show (calculate_bond_values oracle now _).fidelity_bonds = _
    rw [calculate_bond_values]
    show (List.foldl merge_step _ _).fidelity_bonds.map _ = _
    rw [h2]
    simp only [List.nil_append]
    rw [fetch_results_bonds nodes]
  · intro b
    rw [calculate_bond_value_single]
    split
    · exact ⟨rfl, rfl, rfl, rfl, rfl⟩
    · split
      · exact ⟨rfl, rfl, rfl, rfl, rfl⟩
      · split
        · exact ⟨rfl, rfl, rfl, rfl, rfl⟩
        · split
          · exact ⟨rfl, rfl, rfl, rfl, rfl⟩
          · exact ⟨rfl, rfl, rfl, rfl, rfl⟩

end JoinMarket
